import Mathlib

/-!
# gorun: cleanup path (`cleanup.go`)

A shallow embedding of `KillAllByName`, `killAllWindows`, `killAllUnix` and
`stopProgramAndCleanupUnsafe`.

* A Go `string` is a Lean `String`, read as its sequence of characters.  The
  separators `/` and `\` and the decimal digits are single-byte ASCII, so
  indices and slices by character agree with Go's byte indices on them.
* A Go `error` is an `Option String`: `none` is `nil`, `some t` is an error
  whose `Error()` text is `t`.
* The operating system is a state of an arbitrary type `σ` together with the
  operations the code calls on it (`Host`).  Every call the code makes on the
  host is appended to a trace, in program order.
* `stopProgramUnsafe` lives in another file of the package; it is a field of
  `Host`: an arbitrary state transformer that returns an error.
* `os.Getpid()` and `os.Getppid()` are read once, before the loop (lines
  60-61); they are two numbers of the host.  `int` is 64 bits wide.
-/

namespace Gorun

/-! ## Standard-library functions the code calls -/

/-- Go `unicode.IsSpace`. -/
def isSpace (c : Char) : Bool :=
  let n := c.toNat
  (0x09 ≤ n && n ≤ 0x0d) || n == 0x20 || n == 0x85 || n == 0xa0 || n == 0x1680 ||
  (0x2000 ≤ n && n ≤ 0x200a) || n == 0x2028 || n == 0x2029 || n == 0x202f ||
  n == 0x205f || n == 0x3000

/-- The loop of `strings.Fields`: `cur` is the field being read, in reverse. -/
def fieldsAux : List Char → List Char → List (List Char)
  | [], cur => if cur = [] then [] else [cur.reverse]
  | c :: cs, cur =>
    if isSpace c then
      (if cur = [] then fieldsAux cs [] else cur.reverse :: fieldsAux cs [])
    else fieldsAux cs (c :: cur)

/-- Go `strings.Fields`: the maximal runs of non-space characters, in order. -/
def Fields (s : String) : List String :=
  (fieldsAux s.data []).map String.mk

/-- Go `strings.TrimSpace`. -/
def TrimSpace (s : String) : String :=
  String.mk ((s.data.dropWhile isSpace).reverse.dropWhile isSpace).reverse

/-- Go `strings.Join`. -/
def Join (elems : List String) (sep : String) : String :=
  sep.intercalate elems

/-- Go `strings.LastIndex` on character lists: the index of the last
occurrence of `sub` in the list, or `-1`. -/
def lastIndexList (sub : List Char) : List Char → Int
  | [] => if sub = [] then 0 else -1
  | c :: cs =>
    let r := lastIndexList sub cs
    if r ≠ -1 then r + 1
    else if sub.isPrefixOf (c :: cs) then 0 else -1

/-- Go `strings.LastIndex`. -/
def LastIndex (s substr : String) : Int :=
  lastIndexList substr.data s.data

/-- Go `strings.Contains`. -/
def containsList (sub : List Char) : List Char → Bool
  | [] => sub.isEmpty
  | c :: cs => sub.isPrefixOf (c :: cs) || containsList sub cs

/-- Go `strings.Contains`. -/
def Contains (s substr : String) : Bool :=
  containsList substr.data s.data

/-- The Go slice expression `s[i:]`, for `0 ≤ i ≤ len(s)`. -/
def sliceFrom (s : String) (i : Int) : String :=
  String.mk (s.data.drop i.toNat)

/-- The two sentinel errors of `strconv`. -/
inductive NumErr
  | errSyntax
  | errRange
deriving DecidableEq, Repr

/-- The digit loop of `strconv.ParseUint(s, 10, 64)`: `n` is the value read
so far. -/
def parseUintLoop : List Char → Nat → Except NumErr Nat
  | [], n => .ok n
  | c :: cs, n =>
    if '0' ≤ c ∧ c ≤ '9' then
      let d := c.toNat - '0'.toNat
      if n ≥ (2 ^ 64 - 1) / 10 + 1 then .error .errRange
      else if n * 10 + d > 2 ^ 64 - 1 then .error .errRange
      else parseUintLoop cs (n * 10 + d)
    else .error .errSyntax

/-- Go `strconv.ParseUint(s, 10, 64)`. -/
def parseUint (s : List Char) : Except NumErr Nat :=
  if s = [] then .error .errSyntax else parseUintLoop s 0

/-- Go `strconv.ParseInt(s, 10, 0)` with a 64-bit `int`. -/
def parseInt (s : List Char) : Except NumErr Int :=
  match s with
  | [] => .error .errSyntax
  | c :: cs =>
    let neg := c = '-'
    let body := if c = '+' ∨ c = '-' then cs else c :: cs
    match parseUint body with
    | .error .errSyntax => .error .errSyntax
    | .error .errRange => .error .errRange
    | .ok un =>
      if ¬ neg ∧ un ≥ 2 ^ 63 then .error .errRange
      else if neg ∧ un > 2 ^ 63 then .error .errRange
      else .ok (if neg then - (un : Int) else (un : Int))

/-- The text of a `*strconv.NumError` of `Atoi`.  `strconv.Quote` is the
identity between double quotes on printable ASCII other than the double
quote and the backslash. -/
def numErrorText (num : String) (e : NumErr) : String :=
  "strconv.Atoi: parsing \"" ++ num ++ "\": " ++
    (match e with
     | .errSyntax => "invalid syntax"
     | .errRange => "value out of range")

/-- Go `strconv.Atoi` with a 64-bit `int`; the error is its `Error()` text.
The fast path of `Atoi` (fewer than 19 bytes) computes what `ParseInt`
computes. -/
def Atoi (s : String) : Except String Int :=
  match parseInt s.data with
  | .ok n => .ok n
  | .error e => .error (numErrorText s e)

/-! ## The host -/

/-- The error of `(*exec.Cmd).Output` / `CombinedOutput`: `exitCode` is
`some c` when the error is an `*exec.ExitError` whose `ExitCode()` is `c`. -/
structure CmdError where
  exitCode : Option Int
  text : String
deriving DecidableEq, Repr

/-- The calls the code makes on its host, as they appear in the trace. -/
inductive Event
  | pgrep (name : String)
  | taskkill (name : String)
  | findProcess (pid : Int)
  | interrupt (pid : Int)
  | kill (pid : Int)
  | stop
  | callKillAllByName (name : String) (disableGlobal : Bool)
  | warning (text : String)
deriving DecidableEq, Repr

/-- The host the package runs on. -/
structure Host (σ : Type) where
  /-- Go `runtime.GOOS` -/
  goos : String
  /-- Go `os.Getpid()` -/
  getpid : Int
  /-- Go `os.Getppid()` -/
  getppid : Int
  /-- Run `pgrep -f name` and collect its standard output -/
  pgrep : String → σ → (String × Option CmdError) × σ
  /-- Run `taskkill /F /IM name` and collect its combined output -/
  taskkill : String → σ → (String × Option CmdError) × σ
  /-- Go `os.FindProcess(pid)`: the error -/
  findProcess : Int → σ → Option String × σ
  /-- Go `process.Signal(os.Interrupt)`: the error -/
  signalInterrupt : Int → σ → Option String × σ
  /-- Go `process.Kill()`: the error -/
  kill : Int → σ → Option String × σ
  /-- The method `stopProgramUnsafe` of the package: the error -/
  stopProgramUnsafe : σ → Option String × σ

/-- The state of the host and the trace of the calls made so far. -/
structure World (σ : Type) where
  os : σ
  trace : List Event
deriving DecidableEq

/-- A world in which nothing has been called yet. -/
def World.start {σ : Type} (s : σ) : World σ := ⟨s, []⟩

/-- Record a call. -/
def World.emit {σ : Type} (w : World σ) (s : σ) (e : Event) : World σ :=
  ⟨s, w.trace ++ [e]⟩

/-- The fields of `Config` the cleanup path reads. -/
structure Config where
  ExecProgramPath : String
  KillAllOnStop : Bool
  DisableGlobalCleanup : Bool
deriving DecidableEq, Repr

/-! ## cleanup.go -/

variable {σ : Type}

/-- The function `killAllWindows`. -/
def killAllWindows (H : Host σ) (executableName : String) (w : World σ) :
    Option String × World σ :=
  let r := H.taskkill executableName w.os
  let w1 := w.emit r.2 (.taskkill executableName)
  match r.1.2 with
  | some err =>
    if ¬ Contains r.1.1 "not found" then
      (some ("failed to kill processes " ++ executableName ++ ": " ++ err.text ++
        ", output: " ++ r.1.1), w1)
    else (none, w1)
  | none => (none, w1)

/-- The body of the `for _, pidStr := range pids` loop of `killAllUnix`; the
state is the slice `errors` and the world. -/
def killStep (H : Host σ) (myPid parentPid : Int)
    (st : List String × World σ) (pidStr : String) : List String × World σ :=
  let errors := st.1
  let w := st.2
  match Atoi (TrimSpace pidStr) with
  | .error err => (errors ++ ["invalid PID " ++ pidStr ++ ": " ++ err], w)
  | .ok pid =>
    if pid = myPid ∨ pid = parentPid then (errors, w)
    else
      let f := H.findProcess pid w.os
      let w1 := w.emit f.2 (.findProcess pid)
      match f.1 with
      | some err =>
        (errors ++ ["failed to find process " ++ toString pid ++ ": " ++ err], w1)
      | none =>
        let g := H.signalInterrupt pid w1.os
        let w2 := w1.emit g.2 (.interrupt pid)
        match g.1 with
        | none => (errors, w2)
        | some _ =>
          let k := H.kill pid w2.os
          let w3 := w2.emit k.2 (.kill pid)
          match k.1 with
          | some err =>
            (errors ++ ["failed to kill process " ++ toString pid ++ ": " ++ err], w3)
          | none => (errors, w3)

/-- The `for _, pidStr := range pids` loop of `killAllUnix`. -/
def killLoop (H : Host σ) (myPid parentPid : Int) (pids : List String)
    (st : List String × World σ) : List String × World σ :=
  pids.foldl (killStep H myPid parentPid) st

/-- The function `killAllUnix`. -/
def killAllUnix (H : Host σ) (executableName : String) (w : World σ) :
    Option String × World σ :=
  let r := H.pgrep executableName w.os
  let w1 := w.emit r.2 (.pgrep executableName)
  match r.1.2 with
  | some err =>
    if err.exitCode = some 1 then (none, w1)
    else (some ("failed to find processes " ++ executableName ++ ": " ++ err.text), w1)
  | none =>
    let pids := Fields r.1.1
    let myPid := H.getpid
    let parentPid := H.getppid
    let st := killLoop H myPid parentPid pids ([], w1)
    if st.1.length > 0 then
      (some ("some processes could not be killed: " ++ Join st.1 "; "), st.2)
    else (none, st.2)

/-- The function `KillAllByName`. -/
def KillAllByName (H : Host σ) (executableName : String) (disableGlobal : Bool)
    (w : World σ) : Option String × World σ :=
  if disableGlobal then (none, w)
  else if H.goos = "windows" then killAllWindows H executableName w
  else killAllUnix H executableName w

/-- Lines 113-119 of `stopProgramAndCleanupUnsafe`: the executable name
derived from the path. -/
def execNameOf (path : String) : String :=
  let execName := path
  let lastSlash := LastIndex execName "/"
  let execName := if lastSlash ≠ -1 then sliceFrom execName (lastSlash + 1) else execName
  let lastBackslash := LastIndex execName "\\"
  let execName :=
    if lastBackslash ≠ -1 then sliceFrom execName (lastBackslash + 1) else execName
  execName

/-- The method `stopProgramAndCleanupUnsafe`; `StopProgramAndCleanup` is this
function run under the mutex. -/
def stopProgramAndCleanupUnsafe (H : Host σ) (h : Config) (killAll : Bool)
    (w : World σ) : Option String × World σ :=
  let r := H.stopProgramUnsafe w.os
  let err := r.1
  let w1 := w.emit r.2 .stop
  if killAll ∧ h.ExecProgramPath ≠ "" then
    let execName := execNameOf h.ExecProgramPath
    let w2 : World σ := ⟨w1.os, w1.trace ++ [.callKillAllByName execName h.DisableGlobalCleanup]⟩
    let c := KillAllByName H execName h.DisableGlobalCleanup w2
    match c.1 with
    | some cleanupErr =>
      (err, c.2.emit c.2.os (.warning ("Warning: Failed to cleanup all instances of " ++
        execName ++ ": " ++ cleanupErr ++ "\n")))
    | none => (err, c.2)
  else (err, w1)

/-- The pids of the interrupt and kill calls of a trace. -/
def signalledPids : List Event → List Int
  | [] => []
  | .interrupt pid :: es => pid :: signalledPids es
  | .kill pid :: es => pid :: signalledPids es
  | _ :: es => signalledPids es

/-- The calls of `KillAllByName` of a trace: name and flag. -/
def reaperCalls : List Event → List (String × Bool)
  | [] => []
  | .callKillAllByName n f :: es => (n, f) :: reaperCalls es
  | _ :: es => reaperCalls es

/-! ## Concrete hosts for the examples -/

/-- A POSIX host whose process search prints `out`, on which every process
lookup succeeds and every interrupt and every kill fails with `gone`; the
host's state counts the calls. -/
def scriptedHost (out : String) (pgrepErr : Option CmdError) (gone : Option String) :
    Host Nat where
  goos := "linux"
  getpid := 100
  getppid := 99
  pgrep := fun _ s => ((out, pgrepErr), s + 1)
  taskkill := fun _ s => (("", none), s + 1)
  findProcess := fun _ s => (none, s + 1)
  signalInterrupt := fun _ s => (gone, s + 1)
  kill := fun _ s => (gone, s + 1)
  stopProgramUnsafe := fun s => (none, s + 1)

/-- A POSIX host whose search prints the pid 4242, on which the interrupt
fails and the kill succeeds. -/
def escalatingHost : Host Nat where
  goos := "linux"
  getpid := 100
  getppid := 99
  pgrep := fun _ s => (("4242\n", none), s + 1)
  taskkill := fun _ s => (("", none), s + 1)
  findProcess := fun _ s => (none, s + 1)
  signalInterrupt := fun _ s => (some "operation not permitted", s + 1)
  kill := fun _ s => (none, s + 1)
  stopProgramUnsafe := fun s => (none, s + 1)

/-! ## Definitions used in the statements -/

/-- A block of calls that contains no call of `KillAllByName` and neither
interrupts nor kills the two protected pids. -/
def Harmless (myPid parentPid : Int) (blk : List Event) : Prop :=
  reaperCalls blk = [] ∧ myPid ∉ signalledPids blk ∧ parentPid ∉ signalledPids blk

/-- What lines 114-116 (and 117-119) do to the characters of the name: cut
after the last `c`, when there is one. -/
def cutAfterLast (c : Char) (s : List Char) : List Char :=
  if lastIndexList [c] s ≠ -1 then s.drop (lastIndexList [c] s + 1).toNat else s

/-- The world in which the loop of `killAllUnix` starts: the search has run. -/
def searchWorld (H : Host σ) (name : String) (s : σ) : World σ :=
  (World.start s).emit (H.pgrep name s).2 (.pgrep name)

/-- The state of the loop of `killAllUnix` once the tokens `toks` have had
their turn. -/
def loopAfter (H : Host σ) (name : String) (s : σ) (toks : List String) :
    List String × World σ :=
  killLoop H H.getpid H.getppid toks ([], searchWorld H name s)

/-- The entries the turn of `tok` appends to `errors` when the host is in
state `os`. -/
def turnErrors (H : Host σ) (tok : String) (os : σ) : List String :=
  (killStep H H.getpid H.getppid ([], ⟨os, []⟩) tok).1

/-- In the words of the claim: the token parses as an integer and, unless the
pid is the caller's or the parent's, the lookup succeeds and the interrupt or
the kill that follows it succeeds. -/
def tokenSucceeds (H : Host σ) (tok : String) (os : σ) : Bool :=
  match Atoi (TrimSpace tok) with
  | .error _ => false
  | .ok pid =>
    decide (pid = H.getpid ∨ pid = H.getppid) ||
    ((H.findProcess pid os).1.isNone &&
      ((H.signalInterrupt pid (H.findProcess pid os).2).1.isNone ||
        (H.kill pid (H.signalInterrupt pid (H.findProcess pid os).2).2).1.isNone))

/-- The entries of the token at index `i` of `toks`, in the state the host is
in when its turn comes. -/
def entryAt (H : Host σ) (name : String) (s : σ) (toks : List String) (i : Nat) :
    List String :=
  turnErrors H (toks.getD i "") (loopAfter H name s (toks.take i)).2.os

/-- In the words of the claim, for the token at index `i` of `toks`. -/
def succeedsAt (H : Host σ) (name : String) (s : σ) (toks : List String) (i : Nat) : Bool :=
  tokenSucceeds H (toks.getD i "") (loopAfter H name s (toks.take i)).2.os

/-! ## Traces -/

theorem signalledPids_append (a b : List Event) :
    signalledPids (a ++ b) = signalledPids a ++ signalledPids b := by
  induction a with
  | nil => rfl
  | cons e es ih => cases e <;> simp [signalledPids, ih]

theorem reaperCalls_append (a b : List Event) :
    reaperCalls (a ++ b) = reaperCalls a ++ reaperCalls b := by
  induction a with
  | nil => rfl
  | cons e es ih => cases e <;> simp [reaperCalls, ih]

theorem harmless_nil (a b : Int) : Harmless a b [] := by
  simp [Harmless, reaperCalls, signalledPids]

theorem harmless_append {a b : Int} {x y : List Event}
    (hx : Harmless a b x) (hy : Harmless a b y) : Harmless a b (x ++ y) := by
  obtain ⟨x1, x2, x3⟩ := hx
  obtain ⟨y1, y2, y3⟩ := hy
  refine ⟨?_, ?_, ?_⟩
  · simp [reaperCalls_append, x1, y1]
  · simp [signalledPids_append, x2, y2]
  · simp [signalledPids_append, x3, y3]

/-- One turn of the loop appends a harmless block to the trace. -/
theorem killStep_trace (H : Host σ) (myPid parentPid : Int)
    (st : List String × World σ) (tok : String) :
    ∃ blk, (killStep H myPid parentPid st tok).2.trace = st.2.trace ++ blk ∧
      Harmless myPid parentPid blk := by
  unfold killStep
  simp only []
  split
  · exact ⟨[], by simp, harmless_nil _ _⟩
  · rename_i pid hpid
    by_cases hp : pid = myPid ∨ pid = parentPid
    · rw [if_pos hp]
      exact ⟨[], by simp, harmless_nil _ _⟩
    · rw [if_neg hp]
      have h1 : myPid ≠ pid := fun h => hp (Or.inl h.symm)
      have h2 : parentPid ≠ pid := fun h => hp (Or.inr h.symm)
      split
      · exact ⟨[.findProcess pid], by simp [World.emit],
          by simp [Harmless, reaperCalls, signalledPids]⟩
      · split
        · exact ⟨[.findProcess pid, .interrupt pid], by simp [World.emit],
            by simp [Harmless, reaperCalls, signalledPids, h1, h2]⟩
        · split <;>
          exact ⟨[.findProcess pid, .interrupt pid, .kill pid], by simp [World.emit],
            by simp [Harmless, reaperCalls, signalledPids, h1, h2]⟩

/-- The loop appends a harmless block to the trace. -/
theorem killLoop_trace (H : Host σ) (myPid parentPid : Int) (pids : List String) :
    ∀ st : List String × World σ,
      ∃ blk, (killLoop H myPid parentPid pids st).2.trace = st.2.trace ++ blk ∧
        Harmless myPid parentPid blk := by
  induction pids with
  | nil => intro st; exact ⟨[], by simp [killLoop], harmless_nil _ _⟩
  | cons tok rest ih =>
    intro st
    obtain ⟨b1, e1, q1⟩ := killStep_trace H myPid parentPid st tok
    obtain ⟨b2, e2, q2⟩ := ih (killStep H myPid parentPid st tok)
    refine ⟨b1 ++ b2, ?_, harmless_append q1 q2⟩
    have : killLoop H myPid parentPid (tok :: rest) st =
        killLoop H myPid parentPid rest (killStep H myPid parentPid st tok) := rfl
    rw [this, e2, e1, List.append_assoc]

/-- The trace of `killAllUnix`: the search, then a harmless block. -/
theorem killAllUnix_trace (H : Host σ) (name : String) (w : World σ) :
    ∃ blk, (killAllUnix H name w).2.trace = w.trace ++ Event.pgrep name :: blk ∧
      Harmless H.getpid H.getppid blk := by
  unfold killAllUnix
  simp only []
  split
  · split
    · exact ⟨[], by simp [World.emit], harmless_nil _ _⟩
    · exact ⟨[], by simp [World.emit], harmless_nil _ _⟩
  · obtain ⟨blk, e, q⟩ := killLoop_trace H H.getpid H.getppid (Fields (H.pgrep name w.os).1.1)
      ([], w.emit (H.pgrep name w.os).2 (.pgrep name))
    refine ⟨blk, ?_, q⟩
    have e2 : (killLoop H H.getpid H.getppid (Fields (H.pgrep name w.os).1.1)
        ([], w.emit (H.pgrep name w.os).2 (.pgrep name))).2.trace =
        w.trace ++ Event.pgrep name :: blk := by
      rw [e]; simp [World.emit]
    split <;> exact e2

/-- The trace of `KillAllByName`: a harmless block is appended. -/
theorem KillAllByName_trace (H : Host σ) (name : String) (disableGlobal : Bool)
    (w : World σ) :
    ∃ blk, (KillAllByName H name disableGlobal w).2.trace = w.trace ++ blk ∧
      Harmless H.getpid H.getppid blk := by
  unfold KillAllByName
  split
  · exact ⟨[], by simp, harmless_nil _ _⟩
  · split
    · refine ⟨[.taskkill name], ?_, by simp [Harmless, reaperCalls, signalledPids]⟩
      unfold killAllWindows
      simp only []
      split
      · split <;> simp [World.emit]
      · simp [World.emit]
    · obtain ⟨blk, e, q⟩ := killAllUnix_trace H name w
      refine ⟨Event.pgrep name :: blk, e, ?_⟩
      obtain ⟨q1, q2, q3⟩ := q
      exact ⟨by simp [reaperCalls, q1], by simp [signalledPids, q2], by simp [signalledPids, q3]⟩

/-! ## The Reaper -/

/-- C1: whatever the executable name, the flag, the platform and the output
of the process search, the pids that `KillAllByName` interrupts or kills
contain neither the caller's pid nor its parent's pid. -/
theorem KillAllByName_spares_self_and_parent (H : Host σ) (name : String)
    (disableGlobal : Bool) (s : σ) :
    H.getpid ∉ signalledPids (KillAllByName H name disableGlobal (World.start s)).2.trace ∧
    H.getppid ∉ signalledPids (KillAllByName H name disableGlobal (World.start s)).2.trace := by
  obtain ⟨blk, e, _, q2, q3⟩ := KillAllByName_trace H name disableGlobal (World.start s)
  rw [e]
  simp [World.start, q2, q3]

/-- The filter at work: the search prints the caller's pid, the parent's
pid and a third pid; only the third is signalled. -/
theorem sweep_skips_protected_example :
    signalledPids (KillAllByName (scriptedHost "100\n99\n4242\n" none none) "prog" false
      (World.start 0)).2.trace = [4242] := by
  decide

/-- C2: with `disableGlobal` set, `KillAllByName` returns nil and leaves the
host and the trace as they were, on every platform. -/
theorem KillAllByName_disabled (H : Host σ) (name : String) (w : World σ) :
    KillAllByName H name true w = (none, w) := by
  simp [KillAllByName]

/-- C6: on a POSIX host, when the process search exits with status 1,
`KillAllByName name false` returns nil, and its only call on the host is
the search: nothing is signalled. -/
theorem KillAllByName_zero_matches (H : Host σ) (name out text : String) (s : σ)
    (hposix : H.goos ≠ "windows")
    (hsearch : (H.pgrep name s).1 = (out, some ⟨some 1, text⟩)) :
    KillAllByName H name false (World.start s) =
        (none, ⟨(H.pgrep name s).2, [Event.pgrep name]⟩) ∧
      signalledPids (KillAllByName H name false (World.start s)).2.trace = [] := by
  have h : KillAllByName H name false (World.start s) =
      (none, ⟨(H.pgrep name s).2, [Event.pgrep name]⟩) := by
    simp [KillAllByName, hposix, killAllUnix, World.start, hsearch, World.emit]
  rw [h]
  exact ⟨rfl, rfl⟩

theorem KillAllByName_zero_matches_witness :
    KillAllByName (scriptedHost "" (some ⟨some 1, "exit status 1"⟩) none)
        "nonexistent_program_12345" false (World.start 0) =
        (none, ⟨1, [Event.pgrep "nonexistent_program_12345"]⟩) ∧
      signalledPids (KillAllByName (scriptedHost "" (some ⟨some 1, "exit status 1"⟩) none)
        "nonexistent_program_12345" false (World.start 0)).2.trace = [] :=
  KillAllByName_zero_matches (scriptedHost "" (some ⟨some 1, "exit status 1"⟩) none)
    "nonexistent_program_12345" "" "exit status 1" 0 (by decide) rfl

/-! ## The supervisor's cleanup -/

/-- C3: the error `stopProgramAndCleanupUnsafe` returns is the error of
`stopProgramUnsafe`, whatever `killAll`, the configuration and the host do. -/
theorem stopProgramAndCleanup_returns_stop_error (H : Host σ) (h : Config)
    (killAll : Bool) (w : World σ) :
    (stopProgramAndCleanupUnsafe H h killAll w).1 = (H.stopProgramUnsafe w.os).1 := by
  unfold stopProgramAndCleanupUnsafe
  simp only []
  split
  · split <;> rfl
  · rfl

/-- A host whose sweep fails: the stop succeeds, the sweep's error is
only written as a warning. -/
theorem stopProgramAndCleanup_sweep_failure_example :
    stopProgramAndCleanupUnsafe (scriptedHost "4242\n" none (some "operation not permitted"))
      ⟨"srv/app", false, false⟩ true (World.start 0) =
    (none, ⟨5, [.stop, .callKillAllByName "app" false, .pgrep "app", .findProcess 4242,
      .interrupt 4242, .kill 4242,
      .warning ("Warning: Failed to cleanup all instances of app: some processes could " ++
        "not be killed: failed to kill process 4242: operation not permitted\n")]⟩) := by
  decide

/-- The trace of `stopProgramAndCleanupUnsafe`: the direct stop, then the
calls of `KillAllByName` listed. -/
theorem stopProgramAndCleanupUnsafe_trace (H : Host σ) (h : Config) (killAll : Bool)
    (s : σ) :
    ∃ rest, (stopProgramAndCleanupUnsafe H h killAll (World.start s)).2.trace =
        Event.stop :: rest ∧
      reaperCalls rest =
        (if killAll = true ∧ h.ExecProgramPath ≠ "" then
          [(execNameOf h.ExecProgramPath, h.DisableGlobalCleanup)]
        else []) := by
  unfold stopProgramAndCleanupUnsafe
  simp only []
  by_cases hc : killAll = true ∧ h.ExecProgramPath ≠ ""
  · rw [if_pos hc, if_pos hc]
    obtain ⟨blk, e, q, _, _⟩ := KillAllByName_trace H (execNameOf h.ExecProgramPath)
      h.DisableGlobalCleanup
      ⟨((World.start s).emit (H.stopProgramUnsafe (World.start s).os).2 .stop).os,
       ((World.start s).emit (H.stopProgramUnsafe (World.start s).os).2 .stop).trace ++
        [.callKillAllByName (execNameOf h.ExecProgramPath) h.DisableGlobalCleanup]⟩
    simp only [World.emit, World.start, List.nil_append, List.cons_append] at e
    split
    · rename_i cleanupErr _
      refine ⟨Event.callKillAllByName (execNameOf h.ExecProgramPath) h.DisableGlobalCleanup ::
        (blk ++ [.warning ("Warning: Failed to cleanup all instances of " ++
          execNameOf h.ExecProgramPath ++ ": " ++ cleanupErr ++ "\n")]), ?_, ?_⟩
      · simp only [World.emit, World.start, List.nil_append, List.cons_append]
        rw [e]; rfl
      · simp [reaperCalls, reaperCalls_append, q]
    · refine ⟨Event.callKillAllByName (execNameOf h.ExecProgramPath) h.DisableGlobalCleanup ::
        blk, ?_, ?_⟩
      · simp only [World.emit, World.start, List.nil_append, List.cons_append]
        rw [e]
      · simp [reaperCalls, q]
  · rw [if_neg hc, if_neg hc]
    exact ⟨[], by simp [World.emit, World.start], rfl⟩

/-- C4: the trace of `stopProgramAndCleanupUnsafe` starts with the direct
stop; what follows contains exactly one call of `KillAllByName`, with the
configured `DisableGlobalCleanup`, when `killAll` is set and the path is not
empty, and no call of it otherwise (`killAll` unset, or the path empty). -/
theorem stopProgramAndCleanup_reaper_calls (H : Host σ) (h : Config) (killAll : Bool)
    (s : σ) :
    ∃ rest, (stopProgramAndCleanupUnsafe H h killAll (World.start s)).2.trace =
        Event.stop :: rest ∧
      reaperCalls rest =
        (if killAll = true ∧ h.ExecProgramPath ≠ "" then
          [(execNameOf h.ExecProgramPath, h.DisableGlobalCleanup)]
        else []) :=
  stopProgramAndCleanupUnsafe_trace H h killAll s

/-! ## The executable name -/

theorem execNameOf_data (path : String) :
    (execNameOf path).data = cutAfterLast '\\' (cutAfterLast '/' path.data) := by
  have h1 : ∀ (c : Char) (p : String),
      (if LastIndex p (String.mk [c]) ≠ -1 then sliceFrom p (LastIndex p (String.mk [c]) + 1)
        else p).data = cutAfterLast c p.data := by
    intro c p
    unfold cutAfterLast LastIndex sliceFrom
    split <;> rfl
  have e1 : ("/" : String) = String.mk ['/'] := rfl
  have e2 : ("\\" : String) = String.mk ['\\'] := rfl
  unfold execNameOf
  simp only []
  rw [e1, e2, h1, h1]

/-- `LastIndex` of a one-character string: either the character does not
occur, or the index is that of its last occurrence. -/
theorem lastIndexList_single (c : Char) (s : List Char) :
    (lastIndexList [c] s = -1 ∧ c ∉ s) ∨
    (∃ pre post, s = pre ++ c :: post ∧ c ∉ post ∧ lastIndexList [c] s = (pre.length : Int)) := by
  induction s with
  | nil => left; simp [lastIndexList]
  | cons d ds ih =>
    rcases ih with ⟨hr, hn⟩ | ⟨pre, post, hs, hn, hr⟩
    · by_cases hcd : c = d
      · right
        subst hcd
        refine ⟨[], ds, by simp, hn, ?_⟩
        simp [lastIndexList, hr, List.isPrefixOf]
      · left
        refine ⟨?_, by simp [hcd, hn]⟩
        simp [lastIndexList, hr, hcd, List.isPrefixOf]
    · right
      refine ⟨d :: pre, post, by simp [hs], hn, ?_⟩
      have hne : lastIndexList [c] ds ≠ -1 := by rw [hr]; omega
      simp only [lastIndexList, hne, ne_eq, not_false_eq_true, if_true, hr, List.length_cons]
      push_cast
      rfl

/-- Cutting after the last `c` leaves a suffix without `c`: the whole list
when `c` does not occur, what follows the last `c` otherwise. -/
theorem cutAfterLast_spec (c : Char) (s : List Char) :
    c ∉ cutAfterLast c s ∧
    ((cutAfterLast c s = s ∧ c ∉ s) ∨ ∃ pre, s = pre ++ c :: cutAfterLast c s) := by
  unfold cutAfterLast
  rcases lastIndexList_single c s with ⟨hr, hn⟩ | ⟨pre, post, hs, hn, hr⟩
  · simp [hr, hn]
  · have hne : lastIndexList [c] s ≠ -1 := by rw [hr]; omega
    have hd : s.drop (lastIndexList [c] s + 1).toNat = post := by
      rw [hr]
      have : ((pre.length : Int) + 1).toNat = pre.length + 1 := by omega
      rw [this, hs]
      simp
    rw [if_pos hne, hd]
    exact ⟨hn, Or.inr ⟨pre, hs⟩⟩

/-- The derived name, on character lists: it contains no separator, and it
is the whole path or what follows a separator of the path. -/
theorem cutBoth_spec (p : List Char) :
    '/' ∉ cutAfterLast '\\' (cutAfterLast '/' p) ∧
    '\\' ∉ cutAfterLast '\\' (cutAfterLast '/' p) ∧
    ((cutAfterLast '\\' (cutAfterLast '/' p) = p ∧ '/' ∉ p ∧ '\\' ∉ p) ∨
      ∃ pre sep, (sep = '/' ∨ sep = '\\') ∧
        p = pre ++ sep :: cutAfterLast '\\' (cutAfterLast '/' p)) := by
  obtain ⟨a1, a2⟩ := cutAfterLast_spec '/' p
  obtain ⟨b1, b2⟩ := cutAfterLast_spec '\\' (cutAfterLast '/' p)
  have hslash : '/' ∉ cutAfterLast '\\' (cutAfterLast '/' p) := by
    rcases b2 with ⟨e, _⟩ | ⟨pre, e⟩
    · rw [e]; exact a1
    · intro hmem
      apply a1
      rw [e]
      simp [hmem]
  refine ⟨hslash, b1, ?_⟩
  rcases a2 with ⟨ea, na⟩ | ⟨pre1, ea⟩
  · rcases b2 with ⟨eb, nb⟩ | ⟨pre2, eb⟩
    · left
      refine ⟨by rw [eb, ea], na, ?_⟩
      rw [ea] at nb
      exact nb
    · right
      refine ⟨pre2, '\\', Or.inr rfl, ?_⟩
      rw [← eb]
      exact ea.symm
  · rcases b2 with ⟨eb, _⟩ | ⟨pre2, eb⟩
    · right
      refine ⟨pre1, '/', Or.inl rfl, ?_⟩
      rw [eb]; exact ea
    · right
      refine ⟨pre1 ++ '/' :: pre2, '\\', Or.inr rfl, ?_⟩
      rw [List.append_assoc, List.cons_append, ← eb]
      exact ea

/-- A call of `KillAllByName` is in a trace exactly when `reaperCalls` lists it. -/
theorem mem_reaperCalls (n : String) (f : Bool) (t : List Event) :
    Event.callKillAllByName n f ∈ t ↔ (n, f) ∈ reaperCalls t := by
  induction t with
  | nil => simp [reaperCalls]
  | cons e es ih => cases e <;> simp [reaperCalls, ih]

/-- The calls of `KillAllByName` in the trace of `stopProgramAndCleanupUnsafe`. -/
theorem mem_stopProgramAndCleanupUnsafe_trace (H : Host σ) (h : Config) (killAll : Bool)
    (s : σ) (n : String) (f : Bool) :
    Event.callKillAllByName n f ∈
        (stopProgramAndCleanupUnsafe H h killAll (World.start s)).2.trace ↔
      (killAll = true ∧ h.ExecProgramPath ≠ "") ∧
        n = execNameOf h.ExecProgramPath ∧ f = h.DisableGlobalCleanup := by
  obtain ⟨rest, e, hr⟩ := stopProgramAndCleanupUnsafe_trace H h killAll s
  rw [e]
  have : Event.callKillAllByName n f ∈ Event.stop :: rest ↔
      Event.callKillAllByName n f ∈ rest := by simp
  rw [this, mem_reaperCalls, hr]
  by_cases hc : killAll = true ∧ h.ExecProgramPath ≠ ""
  · rw [if_pos hc]; simp [hc]
  · rw [if_neg hc]; simp [hc]

theorem reaperCalls_stop_cons (rest : List Event) :
    reaperCalls (Event.stop :: rest) = reaperCalls rest := rfl

/-- The derived name is empty exactly when the non-empty path ends in a
separator. -/
theorem cutBoth_eq_nil_iff (p : List Char) (hp : p ≠ []) :
    cutAfterLast '\\' (cutAfterLast '/' p) = [] ↔
      (p.getLast? = some '/' ∨ p.getLast? = some '\\') := by
  obtain ⟨n1, n2, hs⟩ := cutBoth_spec p
  constructor
  · intro hnil
    rcases hs with ⟨e, _, _⟩ | ⟨pre, sep, hsep, e⟩
    · exact absurd (e.symm.trans hnil) hp
    · rw [hnil] at e
      rw [e, List.getLast?_concat]
      rcases hsep with h | h <;> simp [h]
  · intro hlast
    by_contra hne
    rcases hs with ⟨e, m1, m2⟩ | ⟨pre, sep, _, e⟩
    · rcases hlast with h | h
      · exact m1 (List.mem_of_getLast?_eq_some h)
      · exact m2 (List.mem_of_getLast?_eq_some h)
    · have hl : p.getLast? = (cutAfterLast '\\' (cutAfterLast '/' p)).getLast? := by
        conv_lhs => rw [e]
        have : pre ++ sep :: cutAfterLast '\\' (cutAfterLast '/' p) =
            (pre ++ [sep]) ++ cutAfterLast '\\' (cutAfterLast '/' p) := by simp
        rw [this, List.getLast?_append_of_ne_nil _ hne]
      rw [hl] at hlast
      rcases hlast with h | h
      · exact n1 (List.mem_of_getLast?_eq_some h)
      · exact n2 (List.mem_of_getLast?_eq_some h)

/-- C5: every name that `stopProgramAndCleanupUnsafe`, called with
`killAll` set, passes to `KillAllByName` contains neither `/` nor `\`, is a
suffix of `ExecProgramPath`, and is the whole path when the path contains no
separator and otherwise what follows a separator of the path: it is what
follows the last occurrence of either separator. -/
theorem reaper_name_is_base_name (H : Host σ) (h : Config) (s : σ) (n : String) (f : Bool)
    (hcall : Event.callKillAllByName n f ∈
      (stopProgramAndCleanupUnsafe H h true (World.start s)).2.trace) :
    '/' ∉ n.data ∧ '\\' ∉ n.data ∧ n.data <:+ h.ExecProgramPath.data ∧
    ((n = h.ExecProgramPath ∧ '/' ∉ h.ExecProgramPath.data ∧ '\\' ∉ h.ExecProgramPath.data) ∨
      ∃ pre sep, (sep = '/' ∨ sep = '\\') ∧ h.ExecProgramPath.data = pre ++ sep :: n.data) := by
  obtain ⟨_, hn, _⟩ := (mem_stopProgramAndCleanupUnsafe_trace H h true s n f).1 hcall
  have hd : n.data = cutAfterLast '\\' (cutAfterLast '/' h.ExecProgramPath.data) := by
    rw [hn, execNameOf_data]
  obtain ⟨n1, n2, hs⟩ := cutBoth_spec h.ExecProgramPath.data
  rw [← hd] at n1 n2 hs
  refine ⟨n1, n2, ?_, ?_⟩
  · rcases hs with ⟨e, _, _⟩ | ⟨pre, sep, _, e⟩
    · rw [e]
    · exact ⟨pre ++ [sep], by rw [e]; simp⟩
  · rcases hs with ⟨e, m1, m2⟩ | hex
    · exact Or.inl ⟨String.ext_iff.2 e, m1, m2⟩
    · exact Or.inr hex

theorem reaper_name_is_base_name_witness :
    Event.callKillAllByName "main.exe" false ∈
      (stopProgramAndCleanupUnsafe (scriptedHost "" none none)
        ⟨"srv\\bin/win\\main.exe", true, false⟩ true (World.start 0)).2.trace ∧
    ('/' ∉ "main.exe".data ∧ '\\' ∉ "main.exe".data ∧
      "main.exe".data <:+ "srv\\bin/win\\main.exe".data ∧
      (("main.exe" = "srv\\bin/win\\main.exe" ∧ '/' ∉ "srv\\bin/win\\main.exe".data ∧
          '\\' ∉ "srv\\bin/win\\main.exe".data) ∨
        ∃ pre sep, (sep = '/' ∨ sep = '\\') ∧
          "srv\\bin/win\\main.exe".data = pre ++ sep :: "main.exe".data)) :=
  ⟨by decide,
   reaper_name_is_base_name (scriptedHost "" none none)
     ⟨"srv\\bin/win\\main.exe", true, false⟩ 0 "main.exe" false (by decide)⟩

/-- C10: for a non-empty `ExecProgramPath`, `stopProgramAndCleanupUnsafe`
called with `killAll` set calls `KillAllByName` once, and the name it passes
is empty exactly when the last character of the path is `/` or `\`: the
emptiness test of line 111 is on the path, not on the derived name. -/
theorem reaper_name_empty_iff (H : Host σ) (h : Config) (s : σ)
    (hne : h.ExecProgramPath ≠ "") :
    reaperCalls (stopProgramAndCleanupUnsafe H h true (World.start s)).2.trace =
        [(execNameOf h.ExecProgramPath, h.DisableGlobalCleanup)] ∧
    (execNameOf h.ExecProgramPath = "" ↔
      (h.ExecProgramPath.data.getLast? = some '/' ∨
        h.ExecProgramPath.data.getLast? = some '\\')) := by
  constructor
  · obtain ⟨rest, e, hr⟩ := stopProgramAndCleanupUnsafe_trace H h true s
    rw [e, reaperCalls_stop_cons, hr, if_pos ⟨rfl, hne⟩]
  · have hp : h.ExecProgramPath.data ≠ [] := fun hnil => hne (String.ext_iff.2 hnil)
    rw [String.ext_iff, execNameOf_data]
    exact cutBoth_eq_nil_iff _ hp

theorem reaper_name_empty_iff_witness :
    ("bin/" : String) ≠ "" ∧
    reaperCalls (stopProgramAndCleanupUnsafe (scriptedHost "" none none)
        ⟨"bin/", true, false⟩ true (World.start 0)).2.trace = [(execNameOf "bin/", false)] ∧
    (execNameOf "bin/" = "" ↔
      ("bin/".data.getLast? = some '/' ∨ "bin/".data.getLast? = some '\\')) :=
  ⟨by decide,
   reaper_name_empty_iff (scriptedHost "" none none) ⟨"bin/", true, false⟩ 0 (by decide)⟩

/-- At the path "bin/" the Reaper is called with the empty name, and the
process search runs on it. -/
theorem reaper_called_with_empty_name_example :
    (stopProgramAndCleanupUnsafe (scriptedHost "" none none) ⟨"bin/", true, false⟩ true
      (World.start 0)).2.trace =
    [.stop, .callKillAllByName "" false, .pgrep ""] := by
  decide

/-! ## The POSIX sweep, token by token -/

/-- The function `killAllUnix` after a search that found something. -/
theorem killAllUnix_of_search (H : Host σ) (name out : String) (s : σ)
    (hsearch : (H.pgrep name s).1 = (out, none)) :
    killAllUnix H name (World.start s) =
      (if (loopAfter H name s (Fields out)).1.length > 0 then
        (some ("some processes could not be killed: " ++
          Join (loopAfter H name s (Fields out)).1 "; "), (loopAfter H name s (Fields out)).2)
      else (none, (loopAfter H name s (Fields out)).2)) := by
  have h1 : (H.pgrep name s).1.2 = none := by rw [hsearch]
  have h2 : (H.pgrep name s).1.1 = out := by rw [hsearch]
  unfold killAllUnix loopAfter searchWorld
  simp only [World.start, h1, h2]

theorem killLoop_append (H : Host σ) (a b : Int) (xs ys : List String)
    (st : List String × World σ) :
    killLoop H a b (xs ++ ys) st = killLoop H a b ys (killLoop H a b xs st) := by
  simp [killLoop, List.foldl_append]

theorem killLoop_cons (H : Host σ) (a b : Int) (x : String) (xs : List String)
    (st : List String × World σ) :
    killLoop H a b (x :: xs) st = killLoop H a b xs (killStep H a b st x) := rfl

theorem loopAfter_split (H : Host σ) (name : String) (s : σ) (pre post : List String)
    (tok : String) :
    loopAfter H name s (pre ++ tok :: post) =
      killLoop H H.getpid H.getppid post
        (killStep H H.getpid H.getppid (loopAfter H name s pre) tok) := by
  unfold loopAfter
  rw [killLoop_append, killLoop_cons]

/-- The second component of `killAllUnix` after a search that found something. -/
theorem killAllUnix_world (H : Host σ) (name out : String) (s : σ)
    (hsearch : (H.pgrep name s).1 = (out, none)) :
    (killAllUnix H name (World.start s)).2 = (loopAfter H name s (Fields out)).2 := by
  rw [killAllUnix_of_search H name out s hsearch]
  split <;> rfl

/-- C7: after a search that printed `out`, split the tokens of `out` at any
token `tok`.  The sweep is the turns of the tokens before it, then the turn of
`tok`, then the turns of the tokens after it, whatever happened before; the
calls of the turn of `tok` stay in the final trace.  A token that does not
parse changes nothing on the host.  A token that parses to a pid other than
the caller's and the parent's, and whose lookup succeeds, is interrupted once,
and killed after that exactly when the interrupt failed. -/
theorem sweep_is_best_effort (H : Host σ) (name out : String) (s : σ)
    (pre post : List String) (tok : String)
    (hsearch : (H.pgrep name s).1 = (out, none))
    (hsplit : Fields out = pre ++ tok :: post) :
    (killAllUnix H name (World.start s)).2 =
      (killLoop H H.getpid H.getppid post
        (killStep H H.getpid H.getppid (loopAfter H name s pre) tok)).2 ∧
    (∃ later, (killAllUnix H name (World.start s)).2.trace =
      (killStep H H.getpid H.getppid (loopAfter H name s pre) tok).2.trace ++ later) ∧
    (∀ e, Atoi (TrimSpace tok) = .error e →
      (killStep H H.getpid H.getppid (loopAfter H name s pre) tok).2 =
        (loopAfter H name s pre).2) ∧
    (∀ pid, Atoi (TrimSpace tok) = .ok pid → pid ≠ H.getpid → pid ≠ H.getppid →
      (H.findProcess pid (loopAfter H name s pre).2.os).1 = none →
      (killStep H H.getpid H.getppid (loopAfter H name s pre) tok).2.trace =
        (loopAfter H name s pre).2.trace ++
          (Event.findProcess pid :: Event.interrupt pid ::
            (if (H.signalInterrupt pid
                  (H.findProcess pid (loopAfter H name s pre).2.os).2).1 = none
              then [] else [Event.kill pid]))) := by
  have hw := killAllUnix_world H name out s hsearch
  rw [hsplit, loopAfter_split] at hw
  refine ⟨hw, ?_, ?_, ?_⟩
  · rw [hw]
    obtain ⟨blk, e, _⟩ := killLoop_trace H H.getpid H.getppid post
      (killStep H H.getpid H.getppid (loopAfter H name s pre) tok)
    exact ⟨blk, e⟩
  · intro e he
    unfold killStep
    simp only [he]
  · intro pid hpid hme hpar hfind
    have hp : ¬ (pid = H.getpid ∨ pid = H.getppid) := by
      rintro (h | h)
      · exact hme h
      · exact hpar h
    unfold killStep
    simp only [hpid, if_neg hp, hfind]
    cases hint : (H.signalInterrupt pid
        (H.findProcess pid (loopAfter H name s pre).2.os).2).1 with
    | none => simp [World.emit, hint]
    | some err =>
      simp only [World.emit, hint]
      split <;> simp

theorem sweep_is_best_effort_witness :
    ((scriptedHost "abc 4242\n7\n" none (some "operation not permitted")).pgrep "prog" 0).1 =
      ("abc 4242\n7\n", none) ∧
    Fields "abc 4242\n7\n" = ["abc"] ++ "4242" :: ["7"] ∧
    (killStep (scriptedHost "abc 4242\n7\n" none (some "operation not permitted")) 100 99
        (loopAfter (scriptedHost "abc 4242\n7\n" none (some "operation not permitted"))
          "prog" 0 ["abc"]) "4242").2.trace =
      [.pgrep "prog", .findProcess 4242, .interrupt 4242, .kill 4242] :=
  ⟨rfl, by decide,
   ((sweep_is_best_effort (scriptedHost "abc 4242\n7\n" none (some "operation not permitted"))
      "prog" "abc 4242\n7\n" 0 ["abc"] ["7"] "4242" rfl (by decide)).2.2.2
      4242 rfl (by decide) (by decide) (by decide)).trans (by decide)⟩

/-! ## The aggregated error -/

/-- One turn appends its entries to `errors`. -/
theorem killStep_errors (H : Host σ) (st : List String × World σ) (tok : String) :
    (killStep H H.getpid H.getppid st tok).1 = st.1 ++ turnErrors H tok st.2.os := by
  unfold turnErrors killStep
  cases hA : Atoi (TrimSpace tok) with
  | error e => simp
  | ok pid =>
    by_cases hp : pid = H.getpid ∨ pid = H.getppid
    · simp only [if_pos hp]; simp
    · simp only [if_neg hp, World.emit]
      cases hf : (H.findProcess pid st.2.os).1 with
      | some e => simp
      | none =>
        simp only []
        cases hg : (H.signalInterrupt pid (H.findProcess pid st.2.os).2).1 with
        | none => simp
        | some e =>
          simp only []
          cases hk : (H.kill pid (H.signalInterrupt pid (H.findProcess pid st.2.os).2).2).1 with
          | none => simp
          | some e2 => simp

/-- A turn appends no entry exactly when the token succeeds, and never more
than one. -/
theorem turnErrors_spec (H : Host σ) (tok : String) (os : σ) :
    (turnErrors H tok os).length ≤ 1 ∧
    (turnErrors H tok os = [] ↔ tokenSucceeds H tok os = true) := by
  unfold turnErrors tokenSucceeds killStep
  cases hA : Atoi (TrimSpace tok) with
  | error e => simp
  | ok pid =>
    by_cases hp : pid = H.getpid ∨ pid = H.getppid
    · simp only [if_pos hp]; simp [hp]
    · simp only [if_neg hp, World.emit]
      cases hf : (H.findProcess pid os).1 with
      | some e => simp [hp]
      | none =>
        simp only []
        cases hg : (H.signalInterrupt pid (H.findProcess pid os).2).1 with
        | none => simp [hp]
        | some e =>
          simp only []
          cases hk : (H.kill pid (H.signalInterrupt pid (H.findProcess pid os).2).2).1 with
          | none => simp [hp]
          | some e2 => simp [hp]

/-- The loop only appends to `errors`. -/
theorem killLoop_errors_extend (H : Host σ) (toks : List String) :
    ∀ st : List String × World σ,
      ∃ more, (killLoop H H.getpid H.getppid toks st).1 = st.1 ++ more := by
  induction toks with
  | nil => intro st; exact ⟨[], by simp [killLoop]⟩
  | cons t ts ih =>
    intro st
    obtain ⟨more, e⟩ := ih (killStep H H.getpid H.getppid st t)
    refine ⟨turnErrors H t st.2.os ++ more, ?_⟩
    rw [killLoop_cons, e, killStep_errors, List.append_assoc]

/-- The slice `errors` after the first `n` tokens: the entries of their
turns, in order. -/
theorem loopAfter_errors (H : Host σ) (name : String) (s : σ) (toks : List String) :
    ∀ n, n ≤ toks.length →
      (loopAfter H name s (toks.take n)).1 =
        ((List.range n).map (entryAt H name s toks)).flatten := by
  intro n
  induction n with
  | zero => intro _; simp [loopAfter, killLoop]
  | succ n ih =>
    intro hn
    have hlt : n < toks.length := hn
    have ht : toks.take (n + 1) = toks.take n ++ toks.getD n "" :: [] := by
      rw [List.take_succ]
      simp [List.getD, List.getElem?_eq_getElem hlt]
    rw [ht, loopAfter_split, List.range_succ, List.map_append, List.flatten_append,
      ← ih (Nat.le_of_lt hlt)]
    simp only [killLoop, List.foldl_nil]
    rw [killStep_errors]
    simp [entryAt]

/-- The slice `errors` at the end of the loop. -/
theorem loopAfter_errors_all (H : Host σ) (name : String) (s : σ) (toks : List String) :
    (loopAfter H name s toks).1 =
      ((List.range toks.length).map (entryAt H name s toks)).flatten := by
  have h := loopAfter_errors H name s toks toks.length (Nat.le_refl _)
  rw [List.take_length] at h
  exact h

/-- C8: after a search that printed `out`, every token adds at most one
entry, and none exactly when it succeeds (it parses and, unless the pid is
protected, the lookup and then the interrupt or the kill succeed);
`killAllUnix` returns nil exactly when every token succeeds; and when it
returns an error, this is the one error whose text is "some processes could
not be killed: " followed by the entries of the tokens, in the order of the
tokens, joined by "; ". -/
theorem killAllUnix_error (H : Host σ) (name out : String) (s : σ)
    (hsearch : (H.pgrep name s).1 = (out, none)) :
    (∀ i, i < (Fields out).length →
      (entryAt H name s (Fields out) i).length ≤ 1 ∧
      (entryAt H name s (Fields out) i = [] ↔ succeedsAt H name s (Fields out) i = true)) ∧
    ((killAllUnix H name (World.start s)).1 = none ↔
      ∀ i, i < (Fields out).length → succeedsAt H name s (Fields out) i = true) ∧
    ((killAllUnix H name (World.start s)).1 ≠ none →
      (killAllUnix H name (World.start s)).1 =
        some ("some processes could not be killed: " ++
          Join (((List.range (Fields out).length).map
            (entryAt H name s (Fields out))).flatten) "; ")) := by
  have hturn : ∀ i, (entryAt H name s (Fields out) i).length ≤ 1 ∧
      (entryAt H name s (Fields out) i = [] ↔ succeedsAt H name s (Fields out) i = true) :=
    fun i => turnErrors_spec H _ _
  have herr := loopAfter_errors_all H name s (Fields out)
  have hnil : (loopAfter H name s (Fields out)).1 = [] ↔
      ∀ i, i < (Fields out).length → succeedsAt H name s (Fields out) i = true := by
    rw [herr]
    constructor
    · intro h i hi
      apply (hturn i).2.1
      have := List.flatten_eq_nil_iff.1 h (entryAt H name s (Fields out) i)
        (List.mem_map.2 ⟨i, List.mem_range.2 hi, rfl⟩)
      exact this
    · intro h
      apply List.flatten_eq_nil_iff.2
      intro l hl
      obtain ⟨i, hi, rfl⟩ := List.mem_map.1 hl
      exact (hturn i).2.2 (h i (List.mem_range.1 hi))
  refine ⟨fun i _ => hturn i, ?_, ?_⟩
  · rw [killAllUnix_of_search H name out s hsearch, ← hnil]
    by_cases hl : (loopAfter H name s (Fields out)).1.length > 0
    · rw [if_pos hl]
      constructor
      · intro h; exact absurd h (by simp)
      · intro h; rw [h] at hl; exact absurd hl (by simp)
    · rw [if_neg hl]
      constructor
      · intro _
        exact List.length_eq_zero.1 (by omega)
      · intro _; rfl
  · intro hne
    rw [killAllUnix_of_search H name out s hsearch] at hne ⊢
    by_cases hl : (loopAfter H name s (Fields out)).1.length > 0
    · rw [if_pos hl, herr]
    · rw [if_neg hl] at hne
      exact absurd rfl hne

theorem killAllUnix_error_witness :
    ((scriptedHost "7 x\n" none (some "EPERM")).pgrep "prog" 0).1 = ("7 x\n", none) ∧
    (killAllUnix (scriptedHost "7 x\n" none (some "EPERM")) "prog" (World.start 0)).1 =
      some ("some processes could not be killed: failed to kill process 7: EPERM; " ++
        "invalid PID x: strconv.Atoi: parsing \"x\": invalid syntax") :=
  ⟨rfl,
   ((killAllUnix_error (scriptedHost "7 x\n" none (some "EPERM")) "prog" "7 x\n" 0 rfl).2.2
      (by decide)).trans (by decide)⟩

/-- An escalation that succeeds: the interrupt fails, the kill succeeds,
and the sweep returns nil. -/
theorem escalation_success_example :
    KillAllByName escalatingHost "prog" false (World.start 0) =
    (none, ⟨4, [.pgrep "prog", .findProcess 4242, .interrupt 4242, .kill 4242]⟩) := by
  decide

/-! ## A target that has already exited -/

/-- C9, as stated, fails: the search prints pid 4242, the process has
exited, so the interrupt and then the kill fail with Go's
`os.ErrProcessDone`; the sweep returns an error that lists the pid. -/
theorem vanished_target_is_reported :
    (KillAllByName (scriptedHost "4242\n" none (some "os: process already finished")) "prog"
      false (World.start 0)).1 =
    some ("some processes could not be killed: " ++
      "failed to kill process 4242: os: process already finished") := by
  decide

/-- C9, amended: on a POSIX host, a pid of the search output that is not
protected, whose lookup succeeds, whose interrupt fails and whose kill fails
with an error `e`, whatever `e` is (a process that is already gone
included), adds the entry "failed to kill process <pid>: <e>" to the
aggregated error, and `KillAllByName` returns that error. -/
theorem failed_kill_is_reported (H : Host σ) (name out : String) (s : σ)
    (pre post : List String) (tok : String) (pid : Int) (e : String)
    (hposix : H.goos ≠ "windows")
    (hsearch : (H.pgrep name s).1 = (out, none))
    (hsplit : Fields out = pre ++ tok :: post)
    (hparse : Atoi (TrimSpace tok) = .ok pid)
    (hme : pid ≠ H.getpid) (hpar : pid ≠ H.getppid)
    (hfind : (H.findProcess pid (loopAfter H name s pre).2.os).1 = none)
    (hint : (H.signalInterrupt pid
      (H.findProcess pid (loopAfter H name s pre).2.os).2).1 ≠ none)
    (hkill : (H.kill pid (H.signalInterrupt pid
      (H.findProcess pid (loopAfter H name s pre).2.os).2).2).1 = some e) :
    ∃ entries, ("failed to kill process " ++ toString pid ++ ": " ++ e) ∈ entries ∧
      (KillAllByName H name false (World.start s)).1 =
        some ("some processes could not be killed: " ++ Join entries "; ") := by
  have hp : ¬ (pid = H.getpid ∨ pid = H.getppid) := by
    rintro (h | h)
    · exact hme h
    · exact hpar h
  have hentry : turnErrors H tok (loopAfter H name s pre).2.os =
      ["failed to kill process " ++ toString pid ++ ": " ++ e] := by
    unfold turnErrors killStep
    simp only [hparse, if_neg hp, World.emit, hfind]
    cases hg : (H.signalInterrupt pid
        (H.findProcess pid (loopAfter H name s pre).2.os).2).1 with
    | none => exact absurd hg hint
    | some e1 =>
      simp only []
      rw [hkill]
      simp
  obtain ⟨more, hmore⟩ := killLoop_errors_extend H post
    (killStep H H.getpid H.getppid (loopAfter H name s pre) tok)
  have herrs : (loopAfter H name s (Fields out)).1 =
      (loopAfter H name s pre).1 ++
        ["failed to kill process " ++ toString pid ++ ": " ++ e] ++ more := by
    rw [hsplit, loopAfter_split, hmore, killStep_errors, hentry]
  refine ⟨(loopAfter H name s (Fields out)).1, by rw [herrs]; simp, ?_⟩
  have hlen : (loopAfter H name s (Fields out)).1.length > 0 := by
    rw [herrs]; simp
  have hk : KillAllByName H name false (World.start s) =
      killAllUnix H name (World.start s) := by
    simp [KillAllByName, hposix]
  rw [hk, killAllUnix_of_search H name out s hsearch, if_pos hlen]

theorem failed_kill_is_reported_witness :
    ∃ entries, ("failed to kill process " ++ toString (4242 : Int) ++ ": " ++
        "os: process already finished") ∈ entries ∧
      (KillAllByName (scriptedHost "7 4242\n" none (some "os: process already finished"))
        "prog" false (World.start 0)).1 =
        some ("some processes could not be killed: " ++ Join entries "; ") :=
  failed_kill_is_reported (scriptedHost "7 4242\n" none (some "os: process already finished"))
    "prog" "7 4242\n" 0 ["7"] [] "4242" 4242 "os: process already finished"
    (by decide) rfl (by decide) rfl (by decide) (by decide) (by decide) (by decide) rfl

end Gorun
